import Mathlib

/-!
Shallow embedding of the grading core of the C-code validator
(`src/validation` and `src/runCode.ts`), together with theorems settling
the specification claims.  Strings are modelled through their character
lists; the problem-store lookup and the remote execution call are
collaborators and enter as parameters.
-/

namespace CV

/-- The carriage-return character. -/
def cr : Char := Char.ofNat 13

/-- The line-feed character. -/
def nl : Char := Char.ofNat 10

/-- The space character. -/
def sp : Char := ' '

/-- The horizontal-tab character. -/
def tab : Char := Char.ofNat 9

/-- JavaScript whitespace (the class matched by `\s`, `String.prototype.trim`). -/
def jsSpace (c : Char) : Bool :=
  c = sp || c = tab || c = nl || c = cr ||
  c = Char.ofNat 11 || c = Char.ofNat 12 ||
  c = Char.ofNat 0xA0 || c = Char.ofNat 0x1680 ||
  (Char.ofNat 0x2000 ≤ c && c ≤ Char.ofNat 0x200A) ||
  c = Char.ofNat 0x2028 || c = Char.ofNat 0x2029 ||
  c = Char.ofNat 0x202F || c = Char.ofNat 0x205F ||
  c = Char.ofNat 0x3000 || c = Char.ofNat 0xFEFF

/-- The class `[ \t]` of JavaScript regexes. -/
def isHT (c : Char) : Bool := c = sp || c = tab

/-- `s.replace(/\r\n/g, '\n')`: leftmost scan replacing CRLF pairs. -/
def replCRLF : List Char → List Char
  | [] => []
  | [c] => [c]
  | c :: d :: cs2 =>
    if c = cr && d = nl then nl :: replCRLF cs2
    else c :: replCRLF (d :: cs2)

/-- `s.replace(/\r/g, '\n')`. -/
def replCR (l : List Char) : List Char :=
  l.map (fun c => if c = cr then nl else c)

/-- Worker for run collapsing; `inRun` records whether the previous
character belonged to a run being replaced. -/
def collapseAux (p : Char → Bool) (inRun : Bool) : List Char → List Char
  | [] => []
  | c :: cs =>
    if p c then
      if inRun then collapseAux p true cs
      else sp :: collapseAux p true cs
    else c :: collapseAux p false cs

/-- `s.replace(/X+/g, ' ')` for a character class `p`: every maximal run of
`p`-characters becomes a single space. -/
def collapseRuns (p : Char → Bool) (l : List Char) : List Char :=
  collapseAux p false l

/-- `s.split('\n')` on character lists. -/
def splitNl : List Char → List (List Char)
  | [] => [[]]
  | c :: cs =>
    let r := splitNl cs
    if c = nl then [] :: r
    else
      match r with
      | p :: ps => (c :: p) :: ps
      | [] => [[c]]

/-- `parts.join('\n')` on character lists. -/
def joinNl : List (List Char) → List Char
  | [] => []
  | [p] => p
  | p :: q :: rest => p ++ nl :: joinNl (q :: rest)

/-- Drop empty pieces from the end of a list of lines. -/
def dropNilEnd (ms : List (List Char)) : List (List Char) :=
  (ms.reverse.dropWhile List.isEmpty).reverse

/-- Strip leading JavaScript whitespace. -/
def trimLeft (l : List Char) : List Char := l.dropWhile (fun c => jsSpace c)

/-- Strip trailing JavaScript whitespace. -/
def trimRight (l : List Char) : List Char :=
  (l.reverse.dropWhile (fun c => jsSpace c)).reverse

/-- `s.trim()` of JavaScript. -/
def trimWS (l : List Char) : List Char := trimRight (trimLeft l)

/-- Character-list form of `normalizeOutput` (src/runCode.ts lines 71-80):
unify line endings, collapse `[ \t]+` runs, trim each line, trim the whole. -/
def nOut (l : List Char) : List Char :=
  trimWS (joinNl ((splitNl (collapseRuns isHT (replCR (replCRLF l)))).map trimWS))

/-- `normalizeOutput` from src/runCode.ts. -/
def normalizeOutput (s : String) : String := String.mk (nOut s.data)

/-- `outputsMatch` from src/runCode.ts: equality after normalizing both sides. -/
def outputsMatch (actual expected : String) : Bool :=
  normalizeOutput actual == normalizeOutput expected

/-- The forward slash character. -/
def slash : Char := '/'

/-- The asterisk character. -/
def star : Char := '*'

/-- The opening curly brace character. -/
def lbrace : Char := Char.ofNat 123

/-- The closing curly brace character. -/
def rbrace : Char := Char.ofNat 125

/-- `s.replace(/\/\/[^\n]*/g, '')`: drop line comments.  Fuel-indexed for
structural recursion; at least one character is consumed per step, so the
input length is always enough fuel. -/
def stripLineAux : ℕ → List Char → List Char
  | 0, l => l
  | _ + 1, [] => []
  | _ + 1, [c] => [c]
  | fuel + 1, c :: d :: cs2 =>
    if c = slash ∧ d = slash then
      stripLineAux fuel (cs2.dropWhile (fun x => !(x = nl)))
    else c :: stripLineAux fuel (d :: cs2)

/-- Find the first `*/` and return what follows it, if any. -/
def dropToBlockEnd : List Char → Option (List Char)
  | [] => none
  | [_] => none
  | c :: d :: cs2 =>
    if c = star ∧ d = slash then some cs2 else dropToBlockEnd (d :: cs2)

/-- `s.replace(/\/\*[\s\S]*?\*\//g, '')`: drop block comments (lazily, to
the first closing delimiter); an unterminated opener is left in place. -/
def stripBlockAux : ℕ → List Char → List Char
  | 0, l => l
  | _ + 1, [] => []
  | _ + 1, [c] => [c]
  | fuel + 1, c :: d :: cs2 =>
    if c = slash ∧ d = star then
      match dropToBlockEnd cs2 with
      | some rest => stripBlockAux fuel rest
      | none => c :: d :: cs2
    else c :: stripBlockAux fuel (d :: cs2)

/-- Character-list form of `normalizeCode`: remove comments, collapse
whitespace runs to single spaces, trim. -/
def normalizeCodeL (l : List Char) : List Char :=
  let a := stripLineAux l.length l
  let b := stripBlockAux a.length a
  trimWS (collapseRuns jsSpace b)

/-- `normalizeCode` from the validation module (lines 28-34). -/
def normalizeCode (code : String) : String := String.mk (normalizeCodeL code.data)

/-- An ASCII letter or underscore (start of an identifier token). -/
def isLetterU (c : Char) : Bool :=
  ('a' ≤ c && c ≤ 'z') || ('A' ≤ c && c ≤ 'Z') || c = '_'

/-- An ASCII digit. -/
def isDigitCh (c : Char) : Bool := '0' ≤ c && c ≤ '9'

/-- A continuation character of an identifier token. -/
def isIdentCont (c : Char) : Bool := isLetterU c || isDigitCh c

/-- A character of the operator cluster class. -/
def isOpCh (c : Char) : Bool :=
  c = '+' || c = '-' || c = star || c = slash || c = '%' || c = '=' ||
  c = '<' || c = '>' || c = '!' || c = '&' || c = '|'

/-- A single-character punctuation token. -/
def isPunctCh (c : Char) : Bool :=
  c = '(' || c = ')' || c = lbrace || c = rbrace || c = '[' || c = ']' ||
  c = ';' || c = ','

/-- The token scan of `getTokens` (lines 36-45): identifiers, integer
literals, greedy operator clusters, punctuation; other characters are
skipped.  Fuel-indexed; one character is consumed per step. -/
def tokenizeAux : ℕ → List Char → List String
  | 0, _ => []
  | _ + 1, [] => []
  | fuel + 1, c :: cs =>
    if isLetterU c then
      String.mk (c :: cs.takeWhile isIdentCont) :: tokenizeAux fuel (cs.dropWhile isIdentCont)
    else if isDigitCh c then
      String.mk (c :: cs.takeWhile isDigitCh) :: tokenizeAux fuel (cs.dropWhile isDigitCh)
    else if isOpCh c then
      String.mk (c :: cs.takeWhile isOpCh) :: tokenizeAux fuel (cs.dropWhile isOpCh)
    else if isPunctCh c then
      String.mk [c] :: tokenizeAux fuel cs
    else tokenizeAux fuel cs

/-- `getTokens` from the validation module. -/
def getTokens (code : String) : List String :=
  let n := (normalizeCode code).data
  tokenizeAux n.length n

/-- Lowercase a token (`t.toLowerCase()`). -/
def lowerTok (t : String) : String := String.mk (t.data.map Char.toLower)

/-- The `Set` of lowercased tokens built by `tokenSimilarity`. -/
def tokSet (ts : List String) : Finset String := (ts.map lowerTok).toFinset

/-- `tokenSimilarity` (lines 47-58): the membership-counting loop over
`setA` is the cardinality of the intersection, and `union` is the union. -/
def tokenSimilarity (a b : List String) : ℚ :=
  if a.isEmpty && b.isEmpty then 1
  else if a.isEmpty || b.isEmpty then 0
  else ((tokSet a ∩ tokSet b).card : ℚ) / ((tokSet a ∪ tokSet b).card : ℚ)

/-- The similarity contract as worded in the specification (§4.3): set-based
Jaccard similarity over case-lowered token sets, intersection size over
union size, with the vacuous both-empty case defined as 1. -/
def specJaccard (a b : List String) : ℚ :=
  if a.isEmpty && b.isEmpty then 1
  else ((tokSet a ∩ tokSet b).card : ℚ) / ((tokSet a ∪ tokSet b).card : ℚ)

/-- A word character of JavaScript regexes (`\w`). -/
def isWordCh (c : Char) : Bool := isLetterU c || isDigitCh c

/-- Match a literal at the head of a list, returning the remainder. -/
def dropLit : List Char → List Char → Option (List Char)
  | [], s => some s
  | _ :: _, [] => none
  | c :: cs, d :: ds => if c = d then dropLit cs ds else none

/-- `\s*`: skip any run of JavaScript whitespace. -/
def wsStar (l : List Char) : List Char := l.dropWhile (fun c => jsSpace c)

/-- Does `lit` followed by `\s*` and then `(` match at the head of `s`? -/
def litParenAt (lit : List Char) (s : List Char) : Bool :=
  match dropLit lit s with
  | some r =>
    match wsStar r with
    | c :: _ => c = '('
    | [] => false
  | none => false

/-- Scan for a match of `p` at a position preceded by a word boundary; the
flag records whether the current position follows start-of-input or a
non-word character (all patterns used begin with a word character). -/
def scanBdryAux (p : List Char → Bool) : Bool → List Char → Bool
  | _, [] => false
  | bdry, c :: cs => (bdry && p (c :: cs)) || scanBdryAux p (!isWordCh c) cs

/-- `.test` of a `\b`-anchored pattern. -/
def scanBdry (p : List Char → Bool) (l : List Char) : Bool := scanBdryAux p true l

/-- `.test` of an unanchored pattern: try every position. -/
def scanAny (p : List Char → Bool) : List Char → Bool
  | [] => false
  | c :: cs => p (c :: cs) || scanAny p cs

/-- `/\bmain\s*\(/.test(code)`. -/
def testMainFn (u : List Char) : Bool := scanBdry (litParenAt "main".data) u

/-- `/\b(printf|scanf|fgets)\s*\(/.test(code)`. -/
def testUsesIO (r : List Char) : Bool :=
  scanBdry
    (fun s => litParenAt "printf".data s || litParenAt "scanf".data s ||
      litParenAt "fgets".data s) r

/-- Head match of `/#\s*include\s*[<"]stdio\.h[>"]/`. -/
def inclAt (s : List Char) : Bool :=
  match s with
  | [] => false
  | c :: cs =>
    c = '#' &&
      (match dropLit "include".data (wsStar cs) with
       | some r =>
         (match wsStar r with
          | d :: r2 =>
            (d = '<' || d = '"') &&
              (match dropLit "stdio.h".data r2 with
               | some (e :: _) => e = '>' || e = '"'
               | _ => false)
          | [] => false)
       | none => false)

/-- `/#\s*include\s*[<"]stdio\.h[>"]/.test(code)`. -/
def testInclude (u : List Char) : Bool := scanAny inclAt u

/-- `/\bswitch\s*\(/.test(code)`. -/
def testSwitch (l : List Char) : Bool := scanBdry (litParenAt "switch".data) l

/-- Head match of `/%\s*2/`. -/
def mod2At (s : List Char) : Bool :=
  match s with
  | c :: cs => c = '%' && (match wsStar cs with | d :: _ => d = '2' | [] => false)
  | [] => false

/-- `/%\s*2/.test(code)`. -/
def testMod2 (r : List Char) : Bool := scanAny mod2At r

/-- `/%/.test(code)`. -/
def hasPercent (u : List Char) : Bool := u.any (fun c => c = '%')

/-- `/\bfgets\s*\(/.test(code)`. -/
def testFgets (l : List Char) : Bool := scanBdry (litParenAt "fgets".data) l

/-- `/\bgets\s*\(/.test(code)`. -/
def testGets (l : List Char) : Bool := scanBdry (litParenAt "gets".data) l

/-- Count occurrences of a character (`(code.match(/x/g) || []).length`). -/
def countCh (c : Char) (l : List Char) : ℕ := l.count c

/-- The record returned by `checkStructure`. -/
structure StructureReport where
  mistakes : List String
  penalties : ℕ
deriving DecidableEq

/-- `checkStructure` (lines 60-101): six independent pattern rules, issues
in declaration order, penalties additive. -/
def checkStructure (userCode refCode : String) : StructureReport :=
  let u := userCode.data
  let r := refCode.data
  let b1 := !testMainFn u
  let b2 := testUsesIO r && !testInclude u
  let b3 := !(countCh lbrace u = countCh rbrace u : Bool)
  let b4 := testSwitch r && !testSwitch u
  let b5 := testMod2 r && !hasPercent u
  let b6 := testFgets r && testGets u
  { mistakes :=
      (if b1 then ["Missing main() function"] else []) ++
      (if b2 then ["Missing #include <stdio.h>"] else []) ++
      (if b3 then ["Unbalanced braces"] else []) ++
      (if b4 then ["Problem requires switch statement"] else []) ++
      (if b5 then ["Use modulo operator (%) for even/odd check"] else []) ++
      (if b6 then ["Use fgets() instead of gets()"] else []),
    penalties :=
      (if b1 then 25 else 0) + (if b2 then 15 else 0) + (if b3 then 20 else 0) +
      (if b4 then 15 else 0) + (if b5 then 10 else 0) + (if b6 then 10 else 0) }

/-- The `ValidationResult` record of the validation module; optional fields
model the absent (`undefined`) state as `none`. -/
structure ValidationResult where
  score : ℤ
  mistakes : List String
  summary : String
  matchedProblem : Option String
  userOutput : Option String := none
  expectedOutput : Option String := none
  outputMatched : Option Bool := none
deriving DecidableEq

/-- `compareToReference` (lines 104-148). -/
def compareToReference (userCode refCode : String) : ValidationResult :=
  if normalizeCode userCode = "" then
    { score := 0, mistakes := ["No code provided"],
      summary := "Please write your C solution.", matchedProblem := none }
  else
    let tokenSim := tokenSimilarity (getTokens userCode) (getTokens refCode)
    let structureCheck := checkStructure userCode refCode
    let score : ℤ :=
      min 100 (round (tokenSim * 60) + max 0 (40 - (structureCheck.penalties : ℤ)))
    let m1 := structureCheck.mistakes
    let m2 :=
      if tokenSim < 3 / 10 ∧ m1 = [] then
        m1 ++ ["Solution structure differs significantly from expected approach"]
      else m1
    let m3 := if 90 ≤ score ∧ m2 = [] then m2 ++ ["No major issues - good match!"] else m2
    { score := score,
      mistakes := if m3 = [] then ["Review your implementation for minor improvements"] else m3,
      summary :=
        if 80 ≤ score then "Your solution closely matches the reference."
        else if 50 ≤ score then "Your solution has some differences from the expected approach."
        else "Significant differences from the reference solution. Review the issues.",
      matchedProblem := none }

/-- A stored problem record, with the optional fields the orchestrator
reads (`ProblemEntry & \x7b stdin?, expectedOutput? \x7d`). -/
structure ProblemEntry where
  problem : String
  solution : String
  stdin : Option String := none
  expectedOutput : Option String := none
deriving DecidableEq

/-- The `RunResult` record of src/runCode.ts. -/
structure RunResult where
  success : Bool
  stdout : String
  stderr : String
  error : Option String := none
deriving DecidableEq

/-- `entry.expectedOutput != null && entry.expectedOutput !== ''`. -/
def hasOutputCheck (e : ProblemEntry) : Bool :=
  match e.expectedOutput with
  | none => false
  | some s => !(s = "" : Bool)

/-- The non-null expected output (`entry.expectedOutput!`). -/
def expOut (e : ProblemEntry) : String := e.expectedOutput.getD ""

/-- `stderr.split('\n').slice(0, 3).join('\n')`. -/
def firstThreeLines (s : String) : String :=
  String.mk (joinNl ((splitNl s.data).take 3))

/-- `normalizeOutput(raw).slice(0, 200)` followed by an ellipsis when the
raw string is longer than 200 characters. -/
def outputExcerpt (raw : String) : String :=
  String.mk ((normalizeOutput raw).data.take 200) ++
    (if 200 < raw.data.length then "..." else "")

/-- `validateCCode` (lines 155-234), parameterised by the behaviour of the
collaborators: `matched` is what `findMatchingProblem` returned and `run`
what the single `runCCode` call would return if made. -/
def validateCCode (matched : Option ProblemEntry) (code : String)
    (run : RunResult) : ValidationResult :=
  match matched with
  | none =>
    { score := 0,
      mistakes := ["No matching problem found in the database.",
                   "Paste the exact problem text from the list."],
      summary := "Could not find this problem. Use the exact problem description.",
      matchedProblem := none }
  | some entry =>
    if hasOutputCheck entry then
      if run.success = false ∧ run.stderr ≠ "" then
        { score := 0,
          mistakes := ["Code failed to compile or run.", firstThreeLines run.stderr],
          summary := "Fix compilation/runtime errors first.",
          matchedProblem := some entry.problem,
          userOutput := if run.stdout = "" then none else some run.stdout,
          expectedOutput := entry.expectedOutput,
          outputMatched := some false }
      else if outputsMatch run.stdout (expOut entry) = false then
        { score := 0,
          mistakes := ["Wrong answer. Output does not match the expected result.",
            "Your output: \"" ++ outputExcerpt run.stdout ++ "\"",
            "Expected: \"" ++ outputExcerpt (expOut entry) ++ "\""],
          summary := "Answer is incorrect. Fix your output first, then validate again.",
          matchedProblem := some entry.problem,
          userOutput := some run.stdout,
          expectedOutput := entry.expectedOutput,
          outputMatched := some false }
      else
        let r := compareToReference code entry.solution
        { r with
          matchedProblem := some entry.problem,
          userOutput := some run.stdout,
          expectedOutput := entry.expectedOutput,
          outputMatched := some true,
          summary :=
            if 80 ≤ r.score then
              "Answer correct. Code structure and logic closely match the reference."
            else if 50 ≤ r.score then
              "Answer correct. Code has some differences from the reference approach."
            else "Answer correct. Consider improving code structure and logic." }
    else
      let r := compareToReference code entry.solution
      { r with matchedProblem := some entry.problem }

/-- The terminal state reached by one grading call (spec §4.5).  The
`execFailed` and `outputMismatch` branches return before
`compareToReference`; `outputMatched` and `noOutputCheck` are the two
branches that invoke the structural checker and the similarity scorer. -/
inductive GradePath where
  | unmatched
  | execFailed
  | outputMismatch
  | outputMatched
  | noOutputCheck
deriving DecidableEq

/-- Which branch of `validateCCode` handles the given inputs; the
conditions are those of the source, in source order. -/
def validatePath (matched : Option ProblemEntry) (run : RunResult) : GradePath :=
  match matched with
  | none => .unmatched
  | some entry =>
    if hasOutputCheck entry then
      if run.success = false ∧ run.stderr ≠ "" then .execFailed
      else if outputsMatch run.stdout (expOut entry) = false then .outputMismatch
      else .outputMatched
    else .noOutputCheck

/-- Whether `validateCCode` performs the execution call: the `await
runCCode(...)` on line 180 runs exactly when a problem matched and it has
an output check. -/
def validateRuns (matched : Option ProblemEntry) : Bool :=
  match matched with
  | none => false
  | some entry => hasOutputCheck entry

example : normalizeOutput (String.mk [Char.ofNat 55, cr, nl, sp]) = String.mk [Char.ofNat 55] := by decide

example : outputsMatch "7  x" " 7 x " = true := by decide

example : getTokens "int main() return 0;" = ["int", "main", "(", ")", "return", "0", ";"] := by decide

example : normalizeCode " int  x; // c " = "int x;" := by decide

example : (checkStructure "int x ;" "int x ;").penalties = 25 := by decide

example : (checkStructure "int main() return 0;" "int main() return 0;").penalties = 0 := by decide

/-! ### Generic list and trimming lemmas -/

theorem dropWhile_length_le {α : Type} (p : α → Bool) (l : List α) :
    (l.dropWhile p).length ≤ l.length :=
  (List.dropWhile_sublist p).length_le

theorem dropWhile_eq_of_length {α : Type} (p : α → Bool) (l : List α)
    (h : (l.dropWhile p).length = l.length) : l.dropWhile p = l := by
  induction l with
  | nil => rfl
  | cons c cs ih =>
    by_cases hc : p c
    · rw [List.dropWhile_cons_of_pos hc] at h ⊢
      have h2 := dropWhile_length_le p cs
      simp only [List.length_cons] at h
      omega
    · rw [List.dropWhile_cons_of_neg hc]

theorem trimLeft_length_le (l : List Char) : (trimLeft l).length ≤ l.length :=
  dropWhile_length_le _ l

theorem trimRight_length_le (l : List Char) : (trimRight l).length ≤ l.length := by
  unfold trimRight
  rw [List.length_reverse]
  calc (l.reverse.dropWhile (fun c => jsSpace c)).length
      ≤ l.reverse.length := dropWhile_length_le _ _
    _ = l.length := List.length_reverse l

theorem trimLeft_eq_of_trimmed {q : List Char} (h : trimWS q = q) : trimLeft q = q := by
  have h1 : (trimWS q).length ≤ (trimLeft q).length := trimRight_length_le _
  have h2 : (trimLeft q).length ≤ q.length := trimLeft_length_le q
  rw [h] at h1
  exact dropWhile_eq_of_length _ q (le_antisymm h2 h1)

theorem trimRight_eq_of_trimmed {q : List Char} (h : trimWS q = q) : trimRight q = q := by
  have h1 := trimLeft_eq_of_trimmed h
  unfold trimWS at h
  rwa [h1] at h

theorem head_not_space_of_trimLeft {c : Char} {t : List Char}
    (h : trimLeft (c :: t) = c :: t) : jsSpace c = false := by
  cases hj : jsSpace c
  · rfl
  · exfalso
    unfold trimLeft at h
    rw [List.dropWhile_cons] at h
    simp only [hj, if_true] at h
    have h2 := dropWhile_length_le (fun c => jsSpace c) t
    have h3 := congrArg List.length h
    simp only [List.length_cons] at h3
    omega

theorem head_not_space_of_trimmed {c : Char} {t : List Char}
    (h : trimWS (c :: t) = c :: t) : jsSpace c = false :=
  head_not_space_of_trimLeft (trimLeft_eq_of_trimmed h)

theorem dropWhile_dropWhile {α : Type} (p : α → Bool) (l : List α) :
    (l.dropWhile p).dropWhile p = l.dropWhile p := by
  induction l with
  | nil => rfl
  | cons c cs ih =>
    by_cases hc : p c
    · rw [List.dropWhile_cons_of_pos hc]; exact ih
    · rw [List.dropWhile_cons_of_neg hc, List.dropWhile_cons_of_neg hc]

theorem trimLeft_idem (l : List Char) : trimLeft (trimLeft l) = trimLeft l :=
  dropWhile_dropWhile _ l

theorem trimRight_idem (a : List Char) : trimRight (trimRight a) = trimRight a := by
  unfold trimRight
  rw [List.reverse_reverse, dropWhile_dropWhile]

theorem trimRight_cons (c : Char) (t : List Char) :
    trimRight (c :: t) =
      if (trimRight t).isEmpty then (if jsSpace c then [] else [c])
      else c :: trimRight t := by
  unfold trimRight
  rw [show (c :: t).reverse = t.reverse ++ [c] from List.reverse_cons c t,
    List.dropWhile_append]
  have hiso : (t.reverse.dropWhile (fun c => jsSpace c)).isEmpty =
      ((t.reverse.dropWhile (fun c => jsSpace c)).reverse).isEmpty := by
    cases hd : t.reverse.dropWhile (fun c => jsSpace c) with
    | nil => rfl
    | cons x xs => simp [List.isEmpty_iff]
  by_cases he : (t.reverse.dropWhile (fun c => jsSpace c)).isEmpty
  · rw [if_pos he, if_pos (by rw [← hiso]; exact he)]
    cases hj : jsSpace c
    · simp [List.dropWhile, hj]
    · simp [List.dropWhile, hj]
  · rw [if_neg he, if_neg (by rw [← hiso]; exact he)]
    rw [List.reverse_append]
    rfl

theorem trimLeft_trimRight {a : List Char} (h : trimLeft a = a) :
    trimLeft (trimRight a) = trimRight a := by
  cases a with
  | nil => rfl
  | cons c a' =>
    have hc : jsSpace c = false := head_not_space_of_trimLeft h
    rw [trimRight_cons]
    by_cases he : (trimRight a').isEmpty
    · rw [if_pos he, if_neg (by simp [hc])]
      unfold trimLeft
      rw [List.dropWhile_cons_of_neg (by simp [hc])]
    · rw [if_neg he]
      unfold trimLeft
      rw [List.dropWhile_cons_of_neg (by simp [hc])]

theorem trimWS_idem (l : List Char) : trimWS (trimWS l) = trimWS l := by
  unfold trimWS
  rw [trimLeft_trimRight (trimLeft_idem l), trimRight_idem]

/-! ### Token-similarity lemmas -/

theorem tokSet_nil : tokSet [] = ∅ := rfl

theorem tokSet_nonempty {a : List String} (h : a ≠ []) : (tokSet a).Nonempty := by
  rw [Finset.nonempty_iff_ne_empty]
  unfold tokSet
  rw [Ne, List.toFinset_eq_empty_iff, List.map_eq_nil_iff]
  exact h

theorem tokSet_empty_of_nil {a : List String} (h : a = []) : tokSet a = ∅ := by
  subst h; rfl

theorem tokenSimilarity_self (a : List String) : tokenSimilarity a a = 1 := by
  by_cases h : a = []
  · subst h; rfl
  · have he : a.isEmpty = false := by simp [List.isEmpty_eq_false, h]
    unfold tokenSimilarity
    rw [he]
    simp only [Bool.and_false, Bool.or_self, Bool.false_eq_true, if_false]
    rw [Finset.inter_self, Finset.union_self]
    have hc : ((tokSet a).card : ℚ) ≠ 0 := by
      have := (tokSet_nonempty h).card_pos
      exact_mod_cast this.ne'
    exact div_self hc

theorem tokenSimilarity_nonneg (a b : List String) : 0 ≤ tokenSimilarity a b := by
  unfold tokenSimilarity
  split
  · norm_num
  · split
    · norm_num
    · positivity

theorem tokenSimilarity_le_one (a b : List String) : tokenSimilarity a b ≤ 1 := by
  unfold tokenSimilarity
  split
  · norm_num
  · split
    · norm_num
    · rename_i h1 h2
      have ha : a ≠ [] := by
        intro hn
        subst hn
        exact h2 (by rfl)
      have hu : (0 : ℚ) < ((tokSet a ∪ tokSet b).card : ℚ) := by
        have : (tokSet a ∪ tokSet b).Nonempty :=
          Finset.Nonempty.mono Finset.subset_union_left (tokSet_nonempty ha)
        exact_mod_cast this.card_pos
      rw [div_le_one hu]
      exact_mod_cast Finset.card_le_card Finset.inter_subset_union

theorem tokenSimilarity_eq_specJaccard (a b : List String) :
    tokenSimilarity a b = specJaccard a b := by
  unfold tokenSimilarity specJaccard
  by_cases ha : a = [] <;> by_cases hb : b = []
  · subst ha; subst hb; rfl
  · subst ha
    have hb' : b.isEmpty = false := by simp [List.isEmpty_eq_false, hb]
    rw [hb']
    simp only [List.isEmpty_nil, Bool.true_and, Bool.true_or, Bool.false_eq_true, if_false,
      if_true]
    rw [tokSet_nil, Finset.empty_inter, Finset.card_empty]
    norm_num
  · subst hb
    have ha' : a.isEmpty = false := by simp [List.isEmpty_eq_false, ha]
    rw [ha']
    simp only [List.isEmpty_nil, Bool.and_true, Bool.or_true, Bool.false_eq_true, if_false,
      if_true]
    rw [tokSet_nil, Finset.inter_empty, Finset.card_empty]
    norm_num
  · have ha' : a.isEmpty = false := by simp [List.isEmpty_eq_false, ha]
    have hb' : b.isEmpty = false := by simp [List.isEmpty_eq_false, hb]
    rw [ha', hb']
    rfl

/-! ### Rounding lemmas -/

theorem round_nonneg_of {q : ℚ} (h : 0 ≤ q) : 0 ≤ round q := by
  rw [round_eq]
  exact Int.le_floor.mpr (by push_cast; linarith)

theorem round_le_sixty {q : ℚ} (h : q ≤ 60) : round q ≤ 60 := by
  rw [round_eq]
  have h1 : ⌊q + 1 / 2⌋ ≤ ⌊(60 : ℚ) + 1 / 2⌋ := Int.floor_le_floor (by linarith)
  have h2 : ⌊(60 : ℚ) + 1 / 2⌋ = 60 := by
    rw [Int.floor_eq_iff]
    constructor <;> norm_num
  omega

theorem round_sixty : round ((1 : ℚ) * 60) = 60 := by
  norm_num

/-! ### Branch lemmas for `compareToReference` and `validateCCode` -/

theorem compareToReference_empty {u r : String} (h : normalizeCode u = "") :
    compareToReference u r =
      { score := 0, mistakes := ["No code provided"],
        summary := "Please write your C solution.", matchedProblem := none } := by
  unfold compareToReference
  rw [if_pos h]

theorem compareToReference_score {u r : String} (h : normalizeCode u ≠ "") :
    (compareToReference u r).score =
      min 100 (round (tokenSimilarity (getTokens u) (getTokens r) * 60) +
        max 0 (40 - ((checkStructure u r).penalties : ℤ))) := by
  unfold compareToReference
  rw [if_neg h]

theorem compareToReference_outputMatched_none (u r : String) :
    (compareToReference u r).outputMatched = none := by
  unfold compareToReference
  split <;> rfl

theorem compareToReference_userOutput_none (u r : String) :
    (compareToReference u r).userOutput = none := by
  unfold compareToReference
  split <;> rfl

theorem compareToReference_expectedOutput_none (u r : String) :
    (compareToReference u r).expectedOutput = none := by
  unfold compareToReference
  split <;> rfl

theorem compareToReference_mistakes_ne (u r : String) :
    (compareToReference u r).mistakes ≠ [] := by
  unfold compareToReference
  by_cases h : normalizeCode u = ""
  · rw [if_pos h]
    simp
  · rw [if_neg h]
    show (if _ = ([] : List String) then _ else _) ≠ []
    split_ifs <;> simp_all

theorem compareToReference_score_bounds (u r : String) :
    0 ≤ (compareToReference u r).score ∧ (compareToReference u r).score ≤ 100 := by
  by_cases h : normalizeCode u = ""
  · rw [compareToReference_empty h]
    constructor <;> norm_num
  · rw [compareToReference_score h]
    have hr : 0 ≤ round (tokenSimilarity (getTokens u) (getTokens r) * 60) :=
      round_nonneg_of (mul_nonneg (tokenSimilarity_nonneg _ _) (by norm_num))
    have hm : (0 : ℤ) ≤ max 0 (40 - ((checkStructure u r).penalties : ℤ)) := le_max_left 0 _
    exact ⟨le_min (by norm_num) (by omega), min_le_left _ _⟩

theorem validateCCode_none (code : String) (run : RunResult) :
    validateCCode none code run =
      { score := 0,
        mistakes := ["No matching problem found in the database.",
                     "Paste the exact problem text from the list."],
        summary := "Could not find this problem. Use the exact problem description.",
        matchedProblem := none } := rfl

theorem validateCCode_execFailed {entry : ProblemEntry} {code : String} {run : RunResult}
    (h1 : hasOutputCheck entry = true) (h2 : run.success = false ∧ run.stderr ≠ "") :
    validateCCode (some entry) code run =
      { score := 0,
        mistakes := ["Code failed to compile or run.", firstThreeLines run.stderr],
        summary := "Fix compilation/runtime errors first.",
        matchedProblem := some entry.problem,
        userOutput := if run.stdout = "" then none else some run.stdout,
        expectedOutput := entry.expectedOutput,
        outputMatched := some false } := by
  simp only [validateCCode]
  rw [if_pos h1, if_pos h2]

theorem validateCCode_outputMismatch {entry : ProblemEntry} {code : String} {run : RunResult}
    (h1 : hasOutputCheck entry = true) (h2 : ¬(run.success = false ∧ run.stderr ≠ ""))
    (h3 : outputsMatch run.stdout (expOut entry) = false) :
    validateCCode (some entry) code run =
      { score := 0,
        mistakes := ["Wrong answer. Output does not match the expected result.",
          "Your output: \"" ++ outputExcerpt run.stdout ++ "\"",
          "Expected: \"" ++ outputExcerpt (expOut entry) ++ "\""],
        summary := "Answer is incorrect. Fix your output first, then validate again.",
        matchedProblem := some entry.problem,
        userOutput := some run.stdout,
        expectedOutput := entry.expectedOutput,
        outputMatched := some false } := by
  simp only [validateCCode]
  rw [if_pos h1, if_neg h2, if_pos h3]

theorem validateCCode_outputMatched {entry : ProblemEntry} {code : String} {run : RunResult}
    (h1 : hasOutputCheck entry = true) (h2 : ¬(run.success = false ∧ run.stderr ≠ ""))
    (h3 : outputsMatch run.stdout (expOut entry) = true) :
    validateCCode (some entry) code run =
      { compareToReference code entry.solution with
        matchedProblem := some entry.problem,
        userOutput := some run.stdout,
        expectedOutput := entry.expectedOutput,
        outputMatched := some true,
        summary :=
          if 80 ≤ (compareToReference code entry.solution).score then
            "Answer correct. Code structure and logic closely match the reference."
          else if 50 ≤ (compareToReference code entry.solution).score then
            "Answer correct. Code has some differences from the reference approach."
          else "Answer correct. Consider improving code structure and logic." } := by
  simp only [validateCCode]
  rw [if_pos h1, if_neg h2, if_neg (by rw [h3]; simp)]

theorem validateCCode_noCheck {entry : ProblemEntry} {code : String} {run : RunResult}
    (h1 : hasOutputCheck entry = false) :
    validateCCode (some entry) code run =
      { compareToReference code entry.solution with
        matchedProblem := some entry.problem } := by
  simp only [validateCCode]
  rw [if_neg (by rw [h1]; exact Bool.false_ne_true)]

theorem validatePath_noCheck {entry : ProblemEntry} {run : RunResult}
    (h1 : hasOutputCheck entry = false) :
    validatePath (some entry) run = GradePath.noOutputCheck := by
  simp only [validatePath]
  rw [if_neg (by rw [h1]; exact Bool.false_ne_true)]

/-! ### Claim theorems -/

/-- C1: whenever a result of `validateCCode` carries `outputMatched = false`,
its score is 0 and the call took one of the two short-circuit branches
(execution failure or output mismatch), both of which return before
`compareToReference` — so neither the structural checker nor the
token-similarity scorer ran. -/
theorem claim1_mismatch_zero_shortCircuit (matched : Option ProblemEntry)
    (code : String) (run : RunResult)
    (h : (validateCCode matched code run).outputMatched = some false) :
    (validateCCode matched code run).score = 0 ∧
      (validatePath matched run = GradePath.execFailed ∨
        validatePath matched run = GradePath.outputMismatch) := by
  match matched with
  | none =>
    rw [validateCCode_none] at h
    exact absurd h (by simp)
  | some entry =>
    by_cases h1 : hasOutputCheck entry = true
    · by_cases h2 : run.success = false ∧ run.stderr ≠ ""
      · refine ⟨?_, Or.inl ?_⟩
        · rw [validateCCode_execFailed h1 h2]
        · simp only [validatePath]
          rw [if_pos h1, if_pos h2]
      · by_cases h3 : outputsMatch run.stdout (expOut entry) = false
        · refine ⟨?_, Or.inr ?_⟩
          · rw [validateCCode_outputMismatch h1 h2 h3]
          · simp only [validatePath]
            rw [if_pos h1, if_neg h2, if_pos h3]
        · have h3' : outputsMatch run.stdout (expOut entry) = true := by
            cases hv : outputsMatch run.stdout (expOut entry)
            · exact absurd hv h3
            · rfl
          rw [validateCCode_outputMatched h1 h2 h3'] at h
          exact absurd h (by simp)
    · have h1' : hasOutputCheck entry = false := by
        cases hv : hasOutputCheck entry
        · rfl
        · exact absurd hv h1
      rw [validateCCode_noCheck h1'] at h
      simp only at h
      rw [compareToReference_outputMatched_none] at h
      exact absurd h (by simp)

/-- C1 witness: a concrete mismatching run. -/
theorem claim1_witness :
    (validateCCode (some ⟨"p", "s", none, some "7"⟩) "c" ⟨true, "8", "", none⟩).score = 0 ∧
      (validatePath (some ⟨"p", "s", none, some "7"⟩) ⟨true, "8", "", none⟩ =
          GradePath.execFailed ∨
        validatePath (some ⟨"p", "s", none, some "7"⟩) ⟨true, "8", "", none⟩ =
          GradePath.outputMismatch) :=
  claim1_mismatch_zero_shortCircuit _ _ _ (by decide)

/-- C2: the score of every grading result lies between 0 and 100, whatever
the problem-store and execution collaborators return. -/
theorem claim2_score_in_range (matched : Option ProblemEntry) (code : String)
    (run : RunResult) :
    0 ≤ (validateCCode matched code run).score ∧
      (validateCCode matched code run).score ≤ 100 := by
  match matched with
  | none =>
    rw [validateCCode_none]
    exact ⟨by norm_num, by norm_num⟩
  | some entry =>
    by_cases h1 : hasOutputCheck entry = true
    · by_cases h2 : run.success = false ∧ run.stderr ≠ ""
      · rw [validateCCode_execFailed h1 h2]
        exact ⟨by norm_num, by norm_num⟩
      · by_cases h3 : outputsMatch run.stdout (expOut entry) = false
        · rw [validateCCode_outputMismatch h1 h2 h3]
          exact ⟨by norm_num, by norm_num⟩
        · have h3' : outputsMatch run.stdout (expOut entry) = true := by
            cases hv : outputsMatch run.stdout (expOut entry)
            · exact absurd hv h3
            · rfl
          rw [validateCCode_outputMatched h1 h2 h3']
          exact compareToReference_score_bounds code entry.solution
    · have h1' : hasOutputCheck entry = false := by
        cases hv : hasOutputCheck entry
        · rfl
        · exact absurd hv h1
      rw [validateCCode_noCheck h1']
      exact compareToReference_score_bounds code entry.solution

/-- C3: on the two scoring paths (no expected output, or expected output
matched), the final score is `round(tokenSimilarity * 60) + max(0, 40 -
structuralPenalty)`, clamped to at most 100. -/
theorem claim3_score_composition (entry : ProblemEntry) (code : String) (run : RunResult)
    (hnorm : normalizeCode code ≠ "")
    (hpath : hasOutputCheck entry = false ∨
      (hasOutputCheck entry = true ∧ ¬(run.success = false ∧ run.stderr ≠ "") ∧
        outputsMatch run.stdout (expOut entry) = true)) :
    (validateCCode (some entry) code run).score =
      min 100 (round (tokenSimilarity (getTokens code) (getTokens entry.solution) * 60) +
        max 0 (40 - ((checkStructure code entry.solution).penalties : ℤ))) := by
  rcases hpath with h1 | ⟨h1, h2, h3⟩
  · rw [validateCCode_noCheck h1]
    exact compareToReference_score hnorm
  · rw [validateCCode_outputMatched h1 h2 h3]
    exact compareToReference_score hnorm

/-- C3 witness: a matched problem without an output check, graded on the
similarity/structure path. -/
theorem claim3_witness :
    normalizeCode "int main() return 0;" ≠ "" ∧
      (validateCCode (some ⟨"p", "int main() return 0;", none, none⟩)
          "int main() return 0;" ⟨true, "", "", none⟩).score =
        min 100 (round (tokenSimilarity (getTokens "int main() return 0;")
            (getTokens (ProblemEntry.mk "p" "int main() return 0;" none none).solution) * 60) +
          max 0 (40 - ((checkStructure "int main() return 0;"
            (ProblemEntry.mk "p" "int main() return 0;" none none).solution).penalties : ℤ))) :=
  ⟨by decide, claim3_score_composition _ _ _ (by decide) (Or.inl (by decide))⟩

/-- C8: the issues list of every grading result is non-empty. -/
theorem claim8_issues_nonempty (matched : Option ProblemEntry) (code : String)
    (run : RunResult) : (validateCCode matched code run).mistakes ≠ [] := by
  match matched with
  | none =>
    rw [validateCCode_none]
    simp
  | some entry =>
    by_cases h1 : hasOutputCheck entry = true
    · by_cases h2 : run.success = false ∧ run.stderr ≠ ""
      · rw [validateCCode_execFailed h1 h2]
        simp
      · by_cases h3 : outputsMatch run.stdout (expOut entry) = false
        · rw [validateCCode_outputMismatch h1 h2 h3]
          simp
        · have h3' : outputsMatch run.stdout (expOut entry) = true := by
            cases hv : outputsMatch run.stdout (expOut entry)
            · exact absurd hv h3
            · rfl
          rw [validateCCode_outputMatched h1 h2 h3']
          exact compareToReference_mistakes_ne code entry.solution
    · have h1' : hasOutputCheck entry = false := by
        cases hv : hasOutputCheck entry
        · rfl
        · exact absurd hv h1
      rw [validateCCode_noCheck h1']
      exact compareToReference_mistakes_ne code entry.solution

/-- C10: a matched record whose `expectedOutput` is the empty string is
treated as having no output check: no execution call, the no-output-check
branch is taken, and the result carries no `userOutput`, `expectedOutput`
or `outputMatched` field. -/
theorem claim10_emptyExpected_noCheck (entry : ProblemEntry) (code : String)
    (run : RunResult) (he : entry.expectedOutput = some "") :
    hasOutputCheck entry = false ∧
      validateRuns (some entry) = false ∧
      validatePath (some entry) run = GradePath.noOutputCheck ∧
      validateCCode (some entry) code run =
        { compareToReference code entry.solution with
          matchedProblem := some entry.problem } ∧
      (validateCCode (some entry) code run).userOutput = none ∧
      (validateCCode (some entry) code run).expectedOutput = none ∧
      (validateCCode (some entry) code run).outputMatched = none := by
  have h1 : hasOutputCheck entry = false := by
    unfold hasOutputCheck
    rw [he]
    rfl
  refine ⟨h1, ?_, validatePath_noCheck h1, validateCCode_noCheck h1, ?_, ?_, ?_⟩
  · unfold validateRuns
    exact h1
  · rw [validateCCode_noCheck h1]
    simp only
    exact compareToReference_userOutput_none code entry.solution
  · rw [validateCCode_noCheck h1]
    simp only
    exact compareToReference_expectedOutput_none code entry.solution
  · rw [validateCCode_noCheck h1]
    simp only
    exact compareToReference_outputMatched_none code entry.solution

/-- C10 witness: a concrete record with empty-string expected output. -/
theorem claim10_witness :
    hasOutputCheck ⟨"p", "s", none, some ""⟩ = false ∧
      validateRuns (some ⟨"p", "s", none, some ""⟩) = false ∧
      validatePath (some ⟨"p", "s", none, some ""⟩) ⟨true, "", "", none⟩ =
        GradePath.noOutputCheck ∧
      validateCCode (some ⟨"p", "s", none, some ""⟩) "c" ⟨true, "", "", none⟩ =
        { compareToReference "c" (ProblemEntry.mk "p" "s" none (some "")).solution with
          matchedProblem := some (ProblemEntry.mk "p" "s" none (some "")).problem } ∧
      (validateCCode (some ⟨"p", "s", none, some ""⟩) "c" ⟨true, "", "", none⟩).userOutput =
        none ∧
      (validateCCode (some ⟨"p", "s", none, some ""⟩) "c" ⟨true, "", "", none⟩).expectedOutput =
        none ∧
      (validateCCode (some ⟨"p", "s", none, some ""⟩) "c" ⟨true, "", "", none⟩).outputMatched =
        none :=
  claim10_emptyExpected_noCheck _ _ _ (by rfl)

/-! ### Score evaluation for identical submission and reference -/

theorem compareToReference_self_score {u : String} (h : normalizeCode u ≠ "") :
    (compareToReference u u).score =
      min 100 (60 + max 0 (40 - ((checkStructure u u).penalties : ℤ))) := by
  rw [compareToReference_score h, tokenSimilarity_self, round_sixty]

/-- C6: `tokenSimilarity` is the Jaccard similarity of the lowercased token
sets, lies in [0,1], is 1 on two empty lists, 0 when exactly one list is
empty, and 1 on any non-empty list compared with itself. -/
theorem claim6_tokenSimilarity_contract (a b : List String) :
    tokenSimilarity a b = specJaccard a b ∧
      0 ≤ tokenSimilarity a b ∧ tokenSimilarity a b ≤ 1 ∧
      (a = [] ∧ b = [] → tokenSimilarity a b = 1) ∧
      (a = [] ∧ b ≠ [] → tokenSimilarity a b = 0) ∧
      (a ≠ [] ∧ b = [] → tokenSimilarity a b = 0) ∧
      (a ≠ [] → tokenSimilarity a a = 1) := by
  refine ⟨tokenSimilarity_eq_specJaccard a b, tokenSimilarity_nonneg a b,
    tokenSimilarity_le_one a b, ?_, ?_, ?_, fun _ => tokenSimilarity_self a⟩
  · rintro ⟨ha, hb⟩
    subst ha; subst hb
    rfl
  · rintro ⟨ha, hb⟩
    subst ha
    have hb' : b.isEmpty = false := by simp [List.isEmpty_eq_false, hb]
    unfold tokenSimilarity
    rw [hb']
    rfl
  · rintro ⟨ha, hb⟩
    subst hb
    have ha' : a.isEmpty = false := by simp [List.isEmpty_eq_false, ha]
    unfold tokenSimilarity
    rw [ha']
    rfl

/-- C6 witness: concrete token lists. -/
theorem claim6_witness :
    tokenSimilarity ["Int"] [] = 0 ∧ tokenSimilarity ["a"] ["a"] = 1 :=
  ⟨(claim6_tokenSimilarity_contract ["Int"] []).2.2.2.2.2.1 ⟨by decide, rfl⟩,
    (claim6_tokenSimilarity_contract ["a"] ["a"]).2.2.2.2.2.2 (by decide)⟩

/-- C4 counterexample: the execution collaborator reports failure
(`success = false`) but with empty stderr (as the API-error and network
paths of `runCCode` do); `validateCCode` then falls through to the output
comparison, and with matching output performs full scoring and returns
score 100 with `outputMatched = true` — not the zero-score diagnostic
result the claim requires for every reported failure. -/
theorem claim4_counterexample :
    (⟨false, "7", "", some "API error: 500"⟩ : RunResult).success = false ∧
      (validateCCode (some ⟨"p", "int main() return 0;", none, some "7"⟩)
        "int main() return 0;" ⟨false, "7", "", some "API error: 500"⟩).score = 100 ∧
      (validateCCode (some ⟨"p", "int main() return 0;", none, some "7"⟩)
        "int main() return 0;" ⟨false, "7", "", some "API error: 500"⟩).outputMatched =
        some true := by
  refine ⟨rfl, ?_, ?_⟩
  · rw [validateCCode_outputMatched (by decide) (by decide) (by decide)]
    show (compareToReference "int main() return 0;" "int main() return 0;").score = 100
    rw [compareToReference_self_score (by decide)]
    rw [show (checkStructure "int main() return 0;" "int main() return 0;").penalties = 0
      from by decide]
    norm_num
  · rw [validateCCode_outputMatched (by decide) (by decide) (by decide)]

/-- C4 amended: when the matched problem has an output check and the
execution collaborator reports failure with a non-empty diagnostic
(`stderr`), the result has score 0, its issues contain the excerpt
truncated to the first 3 lines of stderr, and the short-circuit
execution-failure branch is taken, so no similarity or structural scoring
runs; the failure is returned as an ordinary result (the grading function
is total), never thrown. -/
theorem claim4_amended (entry : ProblemEntry) (code : String) (run : RunResult)
    (h1 : hasOutputCheck entry = true) (h2 : run.success = false)
    (h3 : run.stderr ≠ "") :
    (validateCCode (some entry) code run).score = 0 ∧
      firstThreeLines run.stderr ∈ (validateCCode (some entry) code run).mistakes ∧
      validatePath (some entry) run = GradePath.execFailed := by
  have hh : run.success = false ∧ run.stderr ≠ "" := ⟨h2, h3⟩
  refine ⟨?_, ?_, ?_⟩
  · rw [validateCCode_execFailed h1 hh]
  · rw [validateCCode_execFailed h1 hh]
    simp
  · simp only [validatePath]
    rw [if_pos h1, if_pos hh]

/-- C4 amended witness: a concrete failing run with a four-line stderr. -/
theorem claim4_witness :
    (validateCCode (some ⟨"p", "s", none, some "7"⟩) "c"
        ⟨false, "", "e1\ne2\ne3\ne4", none⟩).score = 0 ∧
      firstThreeLines "e1\ne2\ne3\ne4" ∈
        (validateCCode (some ⟨"p", "s", none, some "7"⟩) "c"
          ⟨false, "", "e1\ne2\ne3\ne4", none⟩).mistakes ∧
      validatePath (some ⟨"p", "s", none, some "7"⟩)
        ⟨false, "", "e1\ne2\ne3\ne4", none⟩ = GradePath.execFailed :=
  claim4_amended _ _ _ (by decide) rfl (by decide)

/-- C5 counterexample: a whitespace-only submission against a matched
problem carrying an expected output.  The emptiness check lives inside
`compareToReference`, which only runs after execution and output
comparison on this path: the execution call is performed
(`validateRuns = true`), the output comparison runs and fails, and the
result is the wrong-answer result, not the immediate no-code result. -/
theorem claim5_counterexample :
    normalizeCode " " = "" ∧
      validateRuns (some ⟨"p", "s", none, some "7"⟩) = true ∧
      validatePath (some ⟨"p", "s", none, some "7"⟩) ⟨true, "8", "", none⟩ =
        GradePath.outputMismatch ∧
      (validateCCode (some ⟨"p", "s", none, some "7"⟩) " "
          ⟨true, "8", "", none⟩).mistakes.head? =
        some "Wrong answer. Output does not match the expected result." := by
  refine ⟨by decide, by decide, by decide, by decide⟩

/-- C5 amended: a submission with no non-whitespace content receives the
immediate zero-score "No code provided" result with no execution call
when the matched problem has no output check; on the output-check path
the execution call and output comparison happen first. -/
theorem claim5_amended (entry : ProblemEntry) (code : String) (run : RunResult)
    (hno : hasOutputCheck entry = false) (hempty : normalizeCode code = "") :
    validateRuns (some entry) = false ∧
      validateCCode (some entry) code run =
        { score := 0, mistakes := ["No code provided"],
          summary := "Please write your C solution.",
          matchedProblem := some entry.problem } := by
  constructor
  · simp only [validateRuns]
    exact hno
  · rw [validateCCode_noCheck hno, compareToReference_empty hempty]

/-- C5 amended witness: a whitespace-only submission on the
no-output-check path. -/
theorem claim5_witness :
    validateRuns (some ⟨"p", "s", none, none⟩) = false ∧
      validateCCode (some ⟨"p", "s", none, none⟩) " " ⟨true, "", "", none⟩ =
        { score := 0, mistakes := ["No code provided"],
          summary := "Please write your C solution.",
          matchedProblem := some (ProblemEntry.mk "p" "s" none none).problem } :=
  claim5_amended _ _ _ (by decide) (by decide)

/-- C7 counterexample: submission and reference are the identical text
`"int x ;"`, yet the structural checker penalises the missing `main()`
(penalty 25) and the final score on the scoring path is 75, not 100. -/
theorem claim7_counterexample :
    (validateCCode (some ⟨"p", "int x ;", none, none⟩) "int x ;"
        ⟨true, "", "", none⟩).score = 75 ∧
      (checkStructure "int x ;" "int x ;").penalties = 25 ∧
      tokenSimilarity (getTokens "int x ;") (getTokens "int x ;") = 1 := by
  refine ⟨?_, by decide, tokenSimilarity_self _⟩
  rw [validateCCode_noCheck (by decide)]
  show (compareToReference "int x ;" "int x ;").score = 75
  rw [compareToReference_self_score (by decide)]
  rw [show (checkStructure "int x ;" "int x ;").penalties = 25 from by decide]
  norm_num

/-- C7 amended: for a submission identical to the reference the token
similarity is 1; and when additionally the structural checker reports
zero penalty on that text, the final score on a scoring path is 100. -/
theorem claim7_amended (u : String) (e : ProblemEntry) (run : RunResult)
    (hsol : e.solution = u) (hno : hasOutputCheck e = false)
    (hnorm : normalizeCode u ≠ "") (hpen : (checkStructure u u).penalties = 0) :
    tokenSimilarity (getTokens u) (getTokens u) = 1 ∧
      (validateCCode (some e) u run).score = 100 := by
  refine ⟨tokenSimilarity_self _, ?_⟩
  rw [validateCCode_noCheck hno]
  show (compareToReference u e.solution).score = 100
  rw [hsol, compareToReference_self_score hnorm, hpen]
  norm_num

/-- C7 amended witness: an identical, structurally clean submission. -/
theorem claim7_witness :
    tokenSimilarity (getTokens "int main() return 0;") (getTokens "int main() return 0;") = 1 ∧
      (validateCCode (some ⟨"p", "int main() return 0;", none, none⟩)
        "int main() return 0;" ⟨true, "", "", none⟩).score = 100 :=
  claim7_amended "int main() return 0;" ⟨"p", "int main() return 0;", none, none⟩
    ⟨true, "", "", none⟩ rfl (by decide) (by decide) (by decide)

/-! ### Idempotence of `normalizeOutput`: line-ending stage -/

theorem replCR_no_cr (l : List Char) : cr ∉ replCR l := by
  intro hmem
  unfold replCR at hmem
  rcases List.mem_map.mp hmem with ⟨a, _, ha⟩
  by_cases hc : a = cr
  · rw [if_pos hc] at ha
    exact absurd ha (by decide)
  · rw [if_neg hc] at ha
    exact hc (by rw [ha])

theorem replCRLF_fixed {l : List Char} (h : cr ∉ l) : replCRLF l = l := by
  induction l with
  | nil => rfl
  | cons c cs ih =>
    have hc : c ≠ cr := fun hcc => h (hcc ▸ List.mem_cons_self c cs)
    have hcs : cr ∉ cs := fun hm => h (List.mem_cons_of_mem c hm)
    cases cs with
    | nil => rfl
    | cons d cs2 =>
      show replCRLF (c :: d :: cs2) = c :: d :: cs2
      unfold replCRLF
      rw [if_neg (by simp [hc])]
      rw [ih hcs]

theorem replCR_fixed {l : List Char} (h : cr ∉ l) : replCR l = l := by
  unfold replCR
  conv_rhs => rw [← List.map_id l]
  refine List.map_congr_left ?_
  intro a ha
  have hne : a ≠ cr := fun hcc => h (hcc ▸ ha)
  rw [if_neg hne]
  rfl

/-! ### Idempotence of `normalizeOutput`: run-collapsing stage -/

theorem collapseAux_sub (p : Char → Bool) :
    ∀ (l : List Char) (b : Bool) (c : Char), c ∈ collapseAux p b l → c ∈ l ∨ c = sp := by
  intro l
  induction l with
  | nil => intro b c hc; exact absurd hc (by simp [collapseAux])
  | cons d ds ih =>
    intro b c hc
    unfold collapseAux at hc
    by_cases hd : p d
    · rw [if_pos hd] at hc
      by_cases hb : b
      · rw [if_pos hb] at hc
        rcases ih true c hc with h | h
        · exact Or.inl (List.mem_cons_of_mem d h)
        · exact Or.inr h
      · rw [if_neg hb] at hc
        rcases List.mem_cons.mp hc with h | h
        · exact Or.inr h
        · rcases ih true c h with h2 | h2
          · exact Or.inl (List.mem_cons_of_mem d h2)
          · exact Or.inr h2
    · rw [if_neg hd] at hc
      rcases List.mem_cons.mp hc with h | h
      · exact Or.inl (h ▸ List.mem_cons_self d ds)
      · rcases ih false c h with h2 | h2
        · exact Or.inl (List.mem_cons_of_mem d h2)
        · exact Or.inr h2

theorem collapseAux_only_sp (p : Char → Bool) :
    ∀ (l : List Char) (b : Bool) (c : Char),
      c ∈ collapseAux p b l → p c = true → c = sp := by
  intro l
  induction l with
  | nil => intro b c hc; exact absurd hc (by simp [collapseAux])
  | cons d ds ih =>
    intro b c hc hp
    unfold collapseAux at hc
    by_cases hd : p d
    · rw [if_pos hd] at hc
      by_cases hb : b
      · rw [if_pos hb] at hc
        exact ih true c hc hp
      · rw [if_neg hb] at hc
        rcases List.mem_cons.mp hc with h | h
        · exact h
        · exact ih true c h hp
    · rw [if_neg hd] at hc
      rcases List.mem_cons.mp hc with h | h
      · subst h; exact absurd hp (by simp [hd])
      · exact ih false c h hp

theorem collapseAux_chain (p : Char → Bool) :
    ∀ (l : List Char) (b : Bool),
      (collapseAux p b l).Chain' (fun a c => ¬(p a = true ∧ p c = true)) ∧
        (b = true → ∀ c, (collapseAux p b l).head? = some c → p c = false) := by
  intro l
  induction l with
  | nil =>
    intro b
    exact ⟨List.chain'_nil, fun _ c hc => absurd hc (by simp [collapseAux])⟩
  | cons d ds ih =>
    intro b
    unfold collapseAux
    by_cases hd : p d
    · rw [if_pos hd]
      by_cases hb : b
      · rw [if_pos hb]
        refine ⟨(ih true).1, fun _ => (ih true).2 rfl⟩
      · rw [if_neg hb]
        constructor
        · rw [List.chain'_cons']
          refine ⟨?_, (ih true).1⟩
          intro y hy hcon
          have := (ih true).2 rfl y hy
          rw [this] at hcon
          exact absurd hcon.2 (by simp)
        · intro hbb
          exact absurd hbb (by simpa using hb)
    · rw [if_neg hd]
      constructor
      · rw [List.chain'_cons']
        refine ⟨?_, (ih false).1⟩
        intro y _ hcon
        exact absurd hcon.1 (by simp [hd])
      · intro _ c hc
        rw [List.head?_cons, Option.some_inj] at hc
        rw [← hc]
        cases hv : p d
        · rfl
        · exact absurd hv hd

theorem collapseAux_fixed (p : Char → Bool) :
    ∀ l : List Char, (∀ c ∈ l, p c = true → c = sp) →
      l.Chain' (fun a c => ¬(p a = true ∧ p c = true)) →
      (collapseAux p false l = l ∧
        ((∀ c, l.head? = some c → p c = false) → collapseAux p true l = l)) := by
  intro l
  induction l with
  | nil => exact fun _ _ => ⟨rfl, fun _ => rfl⟩
  | cons d ds ih =>
    intro h1 h2
    have h1' : ∀ c ∈ ds, p c = true → c = sp := fun c hc => h1 c (List.mem_cons_of_mem d hc)
    have h2' : ds.Chain' (fun a c => ¬(p a = true ∧ p c = true)) := h2.tail
    constructor
    · unfold collapseAux
      by_cases hd : p d
      · rw [if_pos hd]
        have hds : d = sp := h1 d (List.mem_cons_self d ds) hd
        have hhead : ∀ c, ds.head? = some c → p c = false := by
          intro c hc
          have hr := (List.chain'_cons'.mp h2).1 c hc
          cases hv : p c
          · rfl
          · exact absurd ⟨hd, hv⟩ hr
        rw [(ih h1' h2').2 hhead, hds]
        rfl
      · rw [if_neg hd]
        rw [(ih h1' h2').1]
    · intro hhead
      have hd : p d = false := hhead d rfl
      unfold collapseAux
      rw [if_neg (by simp [hd])]
      rw [(ih h1' h2').1]

/-! ### Membership and chain preservation through trimming and splitting -/

theorem mem_dropWhile_sub {α : Type} {q : α → Bool} {l : List α} {c : α}
    (h : c ∈ l.dropWhile q) : c ∈ l :=
  (List.dropWhile_sublist q).subset h

theorem mem_trimWS_sub {l : List Char} {c : Char} (h : c ∈ trimWS l) : c ∈ l := by
  unfold trimWS trimRight trimLeft at h
  rw [List.mem_reverse] at h
  have h2 := mem_dropWhile_sub h
  rw [List.mem_reverse] at h2
  exact mem_dropWhile_sub h2

theorem chain'_dropWhile {R : Char → Char → Prop} {q : Char → Bool} {l : List Char}
    (h : l.Chain' R) : (l.dropWhile q).Chain' R := by
  induction l with
  | nil => exact h
  | cons c cs ih =>
    by_cases hc : q c
    · rw [List.dropWhile_cons_of_pos hc]
      exact ih h.tail
    · rwa [List.dropWhile_cons_of_neg hc]

theorem chain'_trimLeft {R : Char → Char → Prop} {l : List Char}
    (h : l.Chain' R) : (trimLeft l).Chain' R :=
  chain'_dropWhile h

theorem chain'_trimRight {R : Char → Char → Prop} {l : List Char}
    (h : l.Chain' R) : (trimRight l).Chain' R := by
  unfold trimRight
  rw [List.chain'_reverse]
  refine chain'_dropWhile ?_
  rw [← List.reverse_reverse l] at h
  rw [List.chain'_reverse] at h
  exact h

theorem chain'_trimWS {R : Char → Char → Prop} {l : List Char}
    (h : l.Chain' R) : (trimWS l).Chain' R :=
  chain'_trimRight (chain'_trimLeft h)

theorem splitNl_ne_nil : ∀ l : List Char, splitNl l ≠ [] := by
  intro l
  induction l with
  | nil => simp [splitNl]
  | cons c cs ih =>
    unfold splitNl
    by_cases hc : c = nl
    · rw [if_pos hc]
      simp
    · rw [if_neg hc]
      cases hs : splitNl cs with
      | nil => simp
      | cons q qs => simp

theorem mem_splitNl_sub :
    ∀ (l : List Char) (q : List Char), q ∈ splitNl l → ∀ c ∈ q, c ∈ l := by
  intro l
  induction l with
  | nil =>
    intro q hq c hc
    simp only [splitNl, List.mem_singleton] at hq
    subst hq
    exact absurd hc (List.not_mem_nil c)
  | cons d ds ih =>
    intro q hq c hc
    unfold splitNl at hq
    by_cases hd : d = nl
    · rw [if_pos hd] at hq
      rcases List.mem_cons.mp hq with h | h
      · subst h; exact absurd hc (List.not_mem_nil c)
      · exact List.mem_cons_of_mem d (ih q h c hc)
    · rw [if_neg hd] at hq
      cases hs : splitNl ds with
      | nil => exact absurd hs (splitNl_ne_nil ds)
      | cons r rs =>
        rw [hs] at hq
        rcases List.mem_cons.mp hq with h | h
        · subst h
          rcases List.mem_cons.mp hc with h2 | h2
          · exact h2 ▸ List.mem_cons_self d ds
          · refine List.mem_cons_of_mem d (ih r ?_ c h2)
            rw [hs]
            exact List.mem_cons_self r rs
        · refine List.mem_cons_of_mem d (ih q ?_ c hc)
          rw [hs]
          exact List.mem_cons_of_mem r h

theorem splitNl_no_nl :
    ∀ (l : List Char) (q : List Char), q ∈ splitNl l → nl ∉ q := by
  intro l
  induction l with
  | nil =>
    intro q hq
    simp only [splitNl, List.mem_singleton] at hq
    subst hq
    exact List.not_mem_nil nl
  | cons d ds ih =>
    intro q hq
    unfold splitNl at hq
    by_cases hd : d = nl
    · rw [if_pos hd] at hq
      rcases List.mem_cons.mp hq with h | h
      · subst h; exact List.not_mem_nil nl
      · exact ih q h
    · rw [if_neg hd] at hq
      cases hs : splitNl ds with
      | nil => exact absurd hs (splitNl_ne_nil ds)
      | cons r rs =>
        rw [hs] at hq
        rcases List.mem_cons.mp hq with h | h
        · subst h
          intro hmem
          rcases List.mem_cons.mp hmem with h2 | h2
          · exact hd h2.symm
          · refine ih r ?_ h2
            rw [hs]
            exact List.mem_cons_self r rs
        · refine ih q ?_
          rw [hs]
          exact List.mem_cons_of_mem r h

theorem splitNl_head :
    ∀ (l : List Char) (q : List Char) (qs : List (List Char)),
      splitNl l = q :: qs → ∀ y, q.head? = some y → l.head? = some y := by
  intro l q qs hs y hy
  cases l with
  | nil =>
    simp only [splitNl] at hs
    injection hs with h1 h2
    rw [← h1] at hy
    exact absurd hy (by simp)
  | cons d ds =>
    unfold splitNl at hs
    by_cases hd : d = nl
    · rw [if_pos hd] at hs
      injection hs with h1 h2
      rw [← h1] at hy
      exact absurd hy (by simp)
    · rw [if_neg hd] at hs
      cases hs2 : splitNl ds with
      | nil => exact absurd hs2 (splitNl_ne_nil ds)
      | cons r rs =>
        rw [hs2] at hs
        injection hs with h1 h2
        rw [← h1] at hy
        simp only [List.head?_cons, Option.some_inj] at hy
        rw [← hy]
        rfl

theorem chain'_splitNl {R : Char → Char → Prop} :
    ∀ (l : List Char), l.Chain' R → ∀ q ∈ splitNl l, q.Chain' R := by
  intro l
  induction l with
  | nil =>
    intro _ q hq
    simp only [splitNl, List.mem_singleton] at hq
    subst hq
    exact List.chain'_nil
  | cons d ds ih =>
    intro hch q hq
    unfold splitNl at hq
    by_cases hd : d = nl
    · rw [if_pos hd] at hq
      rcases List.mem_cons.mp hq with h | h
      · subst h; exact List.chain'_nil
      · exact ih hch.tail q h
    · rw [if_neg hd] at hq
      cases hs : splitNl ds with
      | nil => exact absurd hs (splitNl_ne_nil ds)
      | cons r rs =>
        rw [hs] at hq
        rcases List.mem_cons.mp hq with h | h
        · subst h
          rw [List.chain'_cons']
          constructor
          · intro y hy
            have hdy : ds.head? = some y := splitNl_head ds r rs hs y hy
            exact (List.chain'_cons'.mp hch).1 y hdy
          · refine ih hch.tail r ?_
            rw [hs]
            exact List.mem_cons_self r rs
        · refine ih hch.tail q ?_
          rw [hs]
          exact List.mem_cons_of_mem r h

/-! ### `joinNl` and its interaction with `splitNl` -/

theorem splitNl_cons_nl (cs : List Char) : splitNl (nl :: cs) = [] :: splitNl cs := by
  simp [splitNl]

theorem splitNl_cons_ne {c : Char} (hc : c ≠ nl) (cs : List Char) :
    splitNl (c :: cs) =
      match splitNl cs with
      | p :: ps => (c :: p) :: ps
      | [] => [[c]] := by
  simp [splitNl, hc]

theorem mem_joinNl :
    ∀ (ms : List (List Char)) (c : Char),
      c ∈ joinNl ms → (∃ q ∈ ms, c ∈ q) ∨ c = nl := by
  intro ms
  induction ms with
  | nil => intro c hc; exact absurd hc (List.not_mem_nil c)
  | cons p rest ih =>
    intro c hc
    cases rest with
    | nil =>
      exact Or.inl ⟨p, List.mem_cons_self p [], hc⟩
    | cons q rs =>
      rw [show joinNl (p :: q :: rs) = p ++ nl :: joinNl (q :: rs) from rfl] at hc
      rcases List.mem_append.mp hc with h | h
      · exact Or.inl ⟨p, List.mem_cons_self p _, h⟩
      · rcases List.mem_cons.mp h with h2 | h2
        · exact Or.inr h2
        · rcases ih c h2 with ⟨r, hr, hcr⟩ | h3
          · exact Or.inl ⟨r, List.mem_cons_of_mem p hr, hcr⟩
          · exact Or.inr h3

theorem chain'_joinNl {R : Char → Char → Prop} (hnl1 : ∀ x, R x nl)
    (hnl2 : ∀ x, R nl x) :
    ∀ ms : List (List Char), (∀ q ∈ ms, q.Chain' R) → (joinNl ms).Chain' R := by
  intro ms
  induction ms with
  | nil => intro _; exact List.chain'_nil
  | cons p rest ih =>
    intro hq
    cases rest with
    | nil => exact hq p (List.mem_cons_self p [])
    | cons q rs =>
      show (p ++ nl :: joinNl (q :: rs)).Chain' R
      rw [List.chain'_append]
      refine ⟨hq p (List.mem_cons_self p _), ?_, ?_⟩
      · rw [List.chain'_cons']
        exact ⟨fun y _ => hnl2 y, ih (fun r hr => hq r (List.mem_cons_of_mem p hr))⟩
      · intro x _ y hy
        have hy2 : some nl = some y := hy
        injection hy2 with h2
        rw [← h2]
        exact hnl1 x

theorem joinNl_splitNl : ∀ l : List Char, joinNl (splitNl l) = l := by
  intro l
  induction l with
  | nil => rfl
  | cons c cs ih =>
    by_cases hc : c = nl
    · subst hc
      rw [splitNl_cons_nl]
      cases hs : splitNl cs with
      | nil => exact absurd hs (splitNl_ne_nil cs)
      | cons r rs =>
        show [] ++ nl :: joinNl (r :: rs) = nl :: cs
        rw [List.nil_append, ← hs, ih]
    · rw [splitNl_cons_ne hc]
      cases hs : splitNl cs with
      | nil => exact absurd hs (splitNl_ne_nil cs)
      | cons r rs =>
        rw [hs] at ih
        cases rs with
        | nil =>
          show c :: r = c :: cs
          have h2 : r = cs := ih
          rw [h2]
        | cons r2 rs2 =>
          show (c :: r) ++ nl :: joinNl (r2 :: rs2) = c :: cs
          rw [List.cons_append]
          show c :: (r ++ nl :: joinNl (r2 :: rs2)) = c :: cs
          have h2 : r ++ nl :: joinNl (r2 :: rs2) = cs := ih
          rw [h2]

theorem splitNl_of_no_nl : ∀ p : List Char, nl ∉ p → splitNl p = [p] := by
  intro p
  induction p with
  | nil => intro _; rfl
  | cons c p' ih =>
    intro hp
    have hc : c ≠ nl := fun h => hp (h ▸ List.mem_cons_self c p')
    rw [splitNl_cons_ne hc, ih (fun h => hp (List.mem_cons_of_mem c h))]

theorem splitNl_append_no_nl :
    ∀ p : List Char, nl ∉ p → ∀ t : List Char,
      splitNl (p ++ nl :: t) = p :: splitNl t := by
  intro p
  induction p with
  | nil =>
    intro _ t
    rw [List.nil_append, splitNl_cons_nl]
  | cons c p' ih =>
    intro hp t
    have hc : c ≠ nl := fun h => hp (h ▸ List.mem_cons_self c p')
    have hp' : nl ∉ p' := fun h => hp (List.mem_cons_of_mem c h)
    rw [List.cons_append, splitNl_cons_ne hc, ih hp' t]

theorem splitNl_joinNl :
    ∀ ms : List (List Char), ms ≠ [] → (∀ q ∈ ms, nl ∉ q) →
      splitNl (joinNl ms) = ms := by
  intro ms
  induction ms with
  | nil => intro h _; exact absurd rfl h
  | cons p rest ih =>
    intro _ hq
    cases rest with
    | nil => exact splitNl_of_no_nl p (hq p (List.mem_cons_self p []))
    | cons q rs =>
      show splitNl (p ++ nl :: joinNl (q :: rs)) = p :: q :: rs
      rw [splitNl_append_no_nl p (hq p (List.mem_cons_self p _))]
      rw [ih (by simp) (fun r hr => hq r (List.mem_cons_of_mem p hr))]

/-! ### Trimming a join of head- and last-clean lines -/

theorem trimLeft_joinNl :
    ∀ ms : List (List Char), (∀ q ∈ ms, ∀ c, q.head? = some c → jsSpace c = false) →
      trimLeft (joinNl ms) = joinNl (ms.dropWhile List.isEmpty) := by
  intro ms
  induction ms with
  | nil => intro _; rfl
  | cons p rest ih =>
    intro hq
    have hrest : ∀ q ∈ rest, ∀ c, q.head? = some c → jsSpace c = false :=
      fun r hr => hq r (List.mem_cons_of_mem p hr)
    cases p with
    | nil =>
      rw [show List.dropWhile List.isEmpty ([] :: rest) = List.dropWhile List.isEmpty rest
        from List.dropWhile_cons_of_pos rfl]
      cases rest with
      | nil => rfl
      | cons q rs =>
        show trimLeft ([] ++ nl :: joinNl (q :: rs)) =
          joinNl (List.dropWhile List.isEmpty (q :: rs))
        rw [List.nil_append]
        show List.dropWhile (fun c => jsSpace c) (nl :: joinNl (q :: rs)) =
          joinNl (List.dropWhile List.isEmpty (q :: rs))
        rw [List.dropWhile_cons_of_pos (show (fun c => jsSpace c) nl = true by decide)]
        exact ih hrest
    | cons c p' =>
      have hc : jsSpace c = false := hq (c :: p') (List.mem_cons_self _ _) c rfl
      rw [show List.dropWhile List.isEmpty ((c :: p') :: rest) = (c :: p') :: rest
        from List.dropWhile_cons_of_neg (by simp)]
      cases rest with
      | nil =>
        show trimLeft (c :: p') = joinNl [c :: p']
        unfold trimLeft
        rw [List.dropWhile_cons_of_neg (by simp [hc])]
        rfl
      | cons q rs =>
        show trimLeft ((c :: p') ++ nl :: joinNl (q :: rs)) = joinNl ((c :: p') :: q :: rs)
        unfold trimLeft
        rw [List.cons_append, List.dropWhile_cons_of_neg (by simp [hc])]
        rfl

theorem trimRight_append (x y : List Char) :
    trimRight (x ++ y) =
      if (trimRight y).isEmpty then trimRight x else x ++ trimRight y := by
  unfold trimRight
  rw [List.reverse_append, List.dropWhile_append]
  have hiso : (y.reverse.dropWhile (fun c => jsSpace c)).isEmpty =
      ((y.reverse.dropWhile (fun c => jsSpace c)).reverse).isEmpty := by
    cases hd : y.reverse.dropWhile (fun c => jsSpace c) with
    | nil => rfl
    | cons a as => simp [List.isEmpty_iff]
  by_cases he : (y.reverse.dropWhile (fun c => jsSpace c)).isEmpty
  · rw [if_pos he, if_pos (by rw [← hiso]; exact he)]
  · rw [if_neg he, if_neg (by rw [← hiso]; exact he)]
    rw [List.reverse_append, List.reverse_reverse]

theorem trimRight_eq_of_lastOK {p : List Char}
    (h : ∀ c, p.getLast? = some c → jsSpace c = false) : trimRight p = p := by
  unfold trimRight
  cases hr : p.reverse with
  | nil =>
    have hp : p = [] := by
      rw [← List.reverse_reverse p, hr]
      rfl
    rw [hp]
    rfl
  | cons a as =>
    have ha : jsSpace a = false := by
      refine h a ?_
      rw [← List.head?_reverse, hr]
      rfl
    rw [List.dropWhile_cons_of_neg (by simp [ha]), ← hr, List.reverse_reverse]

theorem lastOK_of_trimmed {q : List Char} (h : trimWS q = q) :
    ∀ c, q.getLast? = some c → jsSpace c = false := by
  intro c hc
  have h1 := trimRight_eq_of_trimmed h
  unfold trimRight at h1
  have h2 : q.reverse.dropWhile (fun c => jsSpace c) = q.reverse := by
    have := congrArg List.reverse h1
    rwa [List.reverse_reverse] at this
  rw [← List.head?_reverse] at hc
  cases hrev : q.reverse with
  | nil => rw [hrev] at hc; exact absurd hc (by simp)
  | cons a as =>
    rw [hrev] at hc h2
    simp only [List.head?_cons, Option.some_inj] at hc
    rw [← hc]
    exact head_not_space_of_trimLeft h2

theorem headOK_of_trimmed {q : List Char} (h : trimWS q = q) :
    ∀ c, q.head? = some c → jsSpace c = false := by
  intro c hc
  cases hq : q with
  | nil => rw [hq] at hc; exact absurd hc (by simp)
  | cons a as =>
    rw [hq] at hc h
    simp only [List.head?_cons, Option.some_inj] at hc
    rw [← hc]
    exact head_not_space_of_trimmed h

/-! ### `dropNilEnd` lemmas -/

theorem mem_dropNilEnd_sub {t : List (List Char)} {q : List Char}
    (h : q ∈ dropNilEnd t) : q ∈ t := by
  unfold dropNilEnd at h
  rw [List.mem_reverse] at h
  have h2 := mem_dropWhile_sub h
  rwa [List.mem_reverse] at h2

theorem dropNilEnd_last_ne (t : List (List Char)) :
    ∀ q, (dropNilEnd t).getLast? = some q → q ≠ [] := by
  intro q hq
  unfold dropNilEnd at hq
  rw [List.getLast?_reverse] at hq
  have hn := List.head?_dropWhile_not List.isEmpty t.reverse
  rw [hq] at hn
  simpa [List.isEmpty_iff] using hn

theorem joinNl_dropNilEnd_nil {t : List (List Char)}
    (h : joinNl (dropNilEnd t) = []) : dropNilEnd t = [] := by
  cases hd : dropNilEnd t with
  | nil => rfl
  | cons q qs =>
    exfalso
    cases qs with
    | nil =>
      have hq : q ≠ [] := dropNilEnd_last_ne t q (by rw [hd]; rfl)
      rw [hd] at h
      exact hq h
    | cons q2 qs2 =>
      rw [hd] at h
      show False
      have : q ++ nl :: joinNl (q2 :: qs2) = [] := h
      simp at this

theorem dropNilEnd_cons_of_ne {t : List (List Char)} (h : dropNilEnd t ≠ [])
    (p : List Char) : dropNilEnd (p :: t) = p :: dropNilEnd t := by
  unfold dropNilEnd at h ⊢
  rw [List.reverse_cons, List.dropWhile_append]
  have he : (t.reverse.dropWhile List.isEmpty).isEmpty = false := by
    cases hd : t.reverse.dropWhile List.isEmpty with
    | nil => exfalso; apply h; rw [hd]; rfl
    | cons a as => rfl
  rw [if_neg (by simp [he])]
  rw [List.reverse_append]
  rfl

theorem dropNilEnd_cons_of_nil {t : List (List Char)} (h : dropNilEnd t = [])
    (p : List Char) : dropNilEnd (p :: t) = if p.isEmpty then [] else [p] := by
  unfold dropNilEnd at h ⊢
  rw [List.reverse_cons, List.dropWhile_append]
  have he : (t.reverse.dropWhile List.isEmpty).isEmpty = true := by
    cases hd : t.reverse.dropWhile List.isEmpty with
    | nil => rfl
    | cons a as =>
      exfalso
      rw [hd] at h
      simp at h
  rw [if_pos he]
  by_cases hp : p.isEmpty
  · rw [if_pos hp]
    have hpn : p = [] := by simpa [List.isEmpty_iff] using hp
    subst hpn
    rfl
  · rw [if_neg hp]
    rw [show List.dropWhile List.isEmpty [p] = [p] from
      List.dropWhile_cons_of_neg (by simpa using hp)]
    rfl

theorem dropNilEnd_idem (t : List (List Char)) :
    dropNilEnd (dropNilEnd t) = dropNilEnd t := by
  unfold dropNilEnd
  rw [List.reverse_reverse, dropWhile_dropWhile]

theorem dropNilEnd_head {t : List (List Char)} (h : dropNilEnd t ≠ []) :
    (dropNilEnd t).head? = t.head? := by
  obtain ⟨s, hs⟩ := List.dropWhile_suffix (l := t.reverse) (p := List.isEmpty)
  have ht : t = (t.reverse.dropWhile List.isEmpty).reverse ++ s.reverse := by
    have h2 := congrArg List.reverse hs
    rw [List.reverse_append, List.reverse_reverse] at h2
    exact h2.symm
  unfold dropNilEnd at h ⊢
  conv_rhs => rw [ht]
  cases hd : (t.reverse.dropWhile List.isEmpty).reverse with
  | nil => exact absurd hd h
  | cons a as => rw [List.cons_append]; rfl

/-! ### The right-trim of a join of trimmed lines -/

theorem trimRight_joinNl :
    ∀ ms : List (List Char), (∀ q ∈ ms, ∀ c, q.getLast? = some c → jsSpace c = false) →
      trimRight (joinNl ms) = joinNl (dropNilEnd ms) := by
  intro ms
  induction ms with
  | nil => intro _; rfl
  | cons p rest ih =>
    intro hq
    have hrest : ∀ q ∈ rest, ∀ c, q.getLast? = some c → jsSpace c = false :=
      fun r hr => hq r (List.mem_cons_of_mem p hr)
    have hlast := hq p (List.mem_cons_self p rest)
    cases rest with
    | nil =>
      show trimRight (joinNl [p]) = joinNl (dropNilEnd [p])
      rw [show dropNilEnd [p] = if p.isEmpty then [] else [p] from
        dropNilEnd_cons_of_nil (t := []) rfl p]
      by_cases hp : p.isEmpty
      · rw [if_pos hp]
        have hpn : p = [] := by simpa [List.isEmpty_iff] using hp
        subst hpn
        rfl
      · rw [if_neg hp]
        show trimRight p = joinNl [p]
        rw [trimRight_eq_of_lastOK hlast]
        rfl
    | cons q rs =>
      show trimRight (p ++ nl :: joinNl (q :: rs)) = joinNl (dropNilEnd (p :: q :: rs))
      rw [trimRight_append]
      rw [show trimRight (nl :: joinNl (q :: rs)) =
          if (trimRight (joinNl (q :: rs))).isEmpty then
            (if jsSpace nl then [] else [nl])
          else nl :: trimRight (joinNl (q :: rs)) from trimRight_cons nl _]
      rw [ih hrest]
      by_cases hJ : (joinNl (dropNilEnd (q :: rs))).isEmpty
      · have hJn : joinNl (dropNilEnd (q :: rs)) = [] := by
          simpa [List.isEmpty_iff] using hJ
        have hDn : dropNilEnd (q :: rs) = [] := joinNl_dropNilEnd_nil hJn
        rw [if_pos hJ]
        rw [if_pos (show jsSpace nl = true by decide)]
        rw [if_pos (show ([] : List Char).isEmpty = true from rfl)]
        rw [show dropNilEnd (p :: q :: rs) = if p.isEmpty then [] else [p] from
          dropNilEnd_cons_of_nil hDn p]
        by_cases hp : p.isEmpty
        · rw [if_pos hp]
          have hpn : p = [] := by simpa [List.isEmpty_iff] using hp
          subst hpn
          rfl
        · rw [if_neg hp]
          show trimRight p = joinNl [p]
          rw [trimRight_eq_of_lastOK hlast]
          rfl
      · have hDn : dropNilEnd (q :: rs) ≠ [] := by
          intro hd
          apply hJ
          rw [hd]
          rfl
        rw [if_neg hJ]
        have hne : ¬((nl :: joinNl (dropNilEnd (q :: rs)) : List Char).isEmpty = true) := by
          simp
        rw [if_neg hne]
        rw [dropNilEnd_cons_of_ne hDn p]
        cases hD : dropNilEnd (q :: rs) with
        | nil => exact absurd hD hDn
        | cons m ms2 =>
          show p ++ nl :: joinNl (m :: ms2) = joinNl (p :: m :: ms2)
          rfl

/-! ### Idempotence of `normalizeOutput` -/

theorem trimmed_map_pieces (y : List Char) :
    ∀ q ∈ (splitNl y).map trimWS, trimWS q = q := by
  intro q hq
  rcases List.mem_map.mp hq with ⟨q0, _, hq0⟩
  rw [← hq0]
  exact trimWS_idem q0

theorem no_nl_map_pieces (y : List Char) :
    ∀ q ∈ (splitNl y).map trimWS, nl ∉ q := by
  intro q hq hmem
  rcases List.mem_map.mp hq with ⟨q0, hq0m, hq0⟩
  rw [← hq0] at hmem
  exact splitNl_no_nl y q0 hq0m (mem_trimWS_sub hmem)

theorem nOut_eq_joinNl (z : List Char) :
    nOut z = joinNl (dropNilEnd
      (((splitNl (collapseRuns isHT (replCR (replCRLF z)))).map trimWS).dropWhile
        List.isEmpty)) := by
  simp only [nOut, trimWS]
  rw [trimLeft_joinNl _ (fun q hq => headOK_of_trimmed (trimmed_map_pieces _ q hq))]
  exact trimRight_joinNl _ (fun q hq =>
    lastOK_of_trimmed (trimmed_map_pieces _ q (mem_dropWhile_sub hq)))

theorem nOut_idem (l : List Char) : nOut (nOut l) = nOut l := by
  rw [nOut_eq_joinNl l]
  set y := collapseRuns isHT (replCR (replCRLF l)) with hy
  set ms2 := dropNilEnd (((splitNl y).map trimWS).dropWhile List.isEmpty) with hms2
  have hTm2 : ∀ q ∈ ms2, trimWS q = q := by
    intro q hq
    rw [hms2] at hq
    exact trimmed_map_pieces y q (mem_dropWhile_sub (mem_dropNilEnd_sub hq))
  have hNl2 : ∀ q ∈ ms2, nl ∉ q := by
    intro q hq
    rw [hms2] at hq
    exact no_nl_map_pieces y q (mem_dropWhile_sub (mem_dropNilEnd_sub hq))
  have hsub2 : ∀ q ∈ ms2, ∀ c ∈ q, c ∈ y := by
    intro q hq c hc
    rw [hms2] at hq
    rcases List.mem_map.mp (mem_dropWhile_sub (mem_dropNilEnd_sub hq)) with ⟨q0, hq0m, hq0⟩
    rw [← hq0] at hc
    exact mem_splitNl_sub y q0 hq0m c (mem_trimWS_sub hc)
  have hmem_out : ∀ c ∈ joinNl ms2, c ∈ y ∨ c = nl := by
    intro c hc
    rcases mem_joinNl ms2 c hc with ⟨q, hq, hcq⟩ | h
    · exact Or.inl (hsub2 q hq c hcq)
    · exact Or.inr h
  have h_no_cr : cr ∉ joinNl ms2 := by
    intro hc
    rcases hmem_out cr hc with hcy | h
    · rw [hy] at hcy
      rcases collapseAux_sub isHT _ false cr hcy with h2 | h2
      · exact replCR_no_cr _ h2
      · exact absurd h2 (by decide)
    · exact absurd h (by decide)
  have h_only_sp : ∀ c ∈ joinNl ms2, isHT c = true → c = sp := by
    intro c hc hp
    rcases hmem_out c hc with hcy | h
    · rw [hy] at hcy
      exact collapseAux_only_sp isHT _ false c hcy hp
    · subst h
      exact absurd hp (by decide)
  have h_chain_y : y.Chain' (fun a b => ¬(isHT a = true ∧ isHT b = true)) := by
    rw [hy]
    exact (collapseAux_chain isHT _ false).1
  have h_chain_pieces : ∀ q ∈ ms2,
      q.Chain' (fun a b => ¬(isHT a = true ∧ isHT b = true)) := by
    intro q hq
    rw [hms2] at hq
    rcases List.mem_map.mp (mem_dropWhile_sub (mem_dropNilEnd_sub hq)) with ⟨q0, hq0m, hq0⟩
    rw [← hq0]
    exact chain'_trimWS (chain'_splitNl y h_chain_y q0 hq0m)
  have h_chain_out : (joinNl ms2).Chain'
      (fun a b => ¬(isHT a = true ∧ isHT b = true)) := by
    refine chain'_joinNl ?_ ?_ ms2 h_chain_pieces
    · intro x hcon
      exact absurd hcon.2 (by decide)
    · intro x hcon
      exact absurd hcon.1 (by decide)
  have h_collapse : collapseRuns isHT (joinNl ms2) = joinNl ms2 :=
    (collapseAux_fixed isHT (joinNl ms2) h_only_sp h_chain_out).1
  have h_crlf : replCRLF (joinNl ms2) = joinNl ms2 := replCRLF_fixed h_no_cr
  have h_cr : replCR (joinNl ms2) = joinNl ms2 := replCR_fixed h_no_cr
  by_cases hne : ms2 = []
  · rw [hne]
    rfl
  · have hsplit_out : splitNl (joinNl ms2) = ms2 := splitNl_joinNl ms2 hne hNl2
    have hmap : ms2.map trimWS = ms2 := by
      rw [List.map_congr_left hTm2]
      simp
    have hhead2 : ∀ q, ms2.head? = some q → q.isEmpty = false := by
      intro q hq
      have h1 : ms2.head? =
          ((((splitNl y).map trimWS).dropWhile List.isEmpty)).head? := by
        rw [hms2]
        exact dropNilEnd_head (by rw [← hms2]; exact hne)
      rw [h1] at hq
      have h2 := List.head?_dropWhile_not List.isEmpty ((splitNl y).map trimWS)
      rw [hq] at h2
      exact h2
    have htrim_out : trimWS (joinNl ms2) = joinNl ms2 := by
      simp only [trimWS]
      rw [trimLeft_joinNl ms2 (fun q hq => headOK_of_trimmed (hTm2 q hq))]
      have hdw : ms2.dropWhile List.isEmpty = ms2 := by
        cases hm2 : ms2 with
        | nil => rfl
        | cons m mr =>
          have hh := hhead2 m (by rw [hm2]; rfl)
          rw [List.dropWhile_cons_of_neg (by simp [hh])]
      rw [hdw]
      rw [trimRight_joinNl ms2 (fun q hq => lastOK_of_trimmed (hTm2 q hq))]
      rw [show dropNilEnd ms2 = ms2 from by rw [hms2]; exact dropNilEnd_idem _]
    show nOut (joinNl ms2) = joinNl ms2
    simp only [nOut]
    rw [h_crlf, h_cr, h_collapse, hsplit_out, hmap]
    exact htrim_out

/-- C9: `normalizeOutput` is idempotent. -/
theorem claim9_normalizeOutput_idem (s : String) :
    normalizeOutput (normalizeOutput s) = normalizeOutput s := by
  unfold normalizeOutput
  exact congrArg String.mk (nOut_idem s.data)

end CV
